import Mathlib

/-!
Verification of the refresh/rank pipeline of the E2T demo leaderboard
(single source file `frontend/src/App.js`).

The embedding below translates the relevant JavaScript functions into Lean:

* JSON field values that can be a number, `null`, or absent are modelled by
  `JsVal`; JavaScript numbers are modelled by `Rat` (every value occurring in
  the claims is exactly representable).
* `Number(v)` coercion is modelled by `jsToNumber` (`Number(null) = 0`,
  `Number(undefined) = NaN`, modelled as `none`).
* Rows are modelled twice, mirroring the code: `RawRow` is the shape coming
  out of `res.json()` (string-typed columns may be `null`/absent, numeric-ish
  columns are `JsVal`), and `NormRow` is the fixed nine-field shape produced
  by the `norm` arrow function inside `loadData`.
-/

/-- A JSON/JS field value for the numeric-ish columns: a (finite) number,
`null`, or an absent field (JS `undefined`). -/
inductive JsVal where
  | jnum (q : Rat)
  | jnull
  | jundef
deriving DecidableEq, Repr

/-- JS `Number(v)` on a `JsVal`: numbers map to themselves, `Number(null) = 0`,
`Number(undefined) = NaN` (modelled as `none`). -/
def jsToNumber : JsVal → Option Rat
  | .jnum q => some q
  | .jnull => some 0
  | .jundef => none

/-- `numVal` from App.js: `Number(v)` with `NaN` mapped to `null`.
Note `numVal(null) = 0` because `Number(null) = 0`. -/
def numVal (v : JsVal) : Option Rat := jsToNumber v

/-- A raw row as parsed from the endpoint's JSON body (before `norm`):
string columns are `Option String` (`none` = `null` or absent, which the
code treats identically via `??`), numeric-ish columns are `JsVal`. -/
structure RawRow where
  customer_name : Option String
  account_id : Option String
  country : Option String
  plan : JsVal
  equity : JsVal
  open_pnl : JsVal
  pct_change : JsVal
  time_taken_hours : JsVal
  updated_at : JsVal
deriving DecidableEq, Repr

/-- The fixed nine-field record shape produced by `norm` in `loadData`. -/
structure NormRow where
  customer_name : String
  account_id : String
  country : String
  plan : JsVal
  equity : JsVal
  open_pnl : JsVal
  pct_change : JsVal
  time_taken_hours : JsVal
  updated_at : JsVal
deriving DecidableEq, Repr

/-- `x ?? null` for the numeric-ish columns: `undefined` collapses to `null`,
everything else is kept. -/
def coalesceNull : JsVal → JsVal
  | .jundef => .jnull
  | v => v

/-- The `norm` arrow function in `loadData`: string columns default to `""`
via `?? ""`, the remaining columns default to `null` via `?? null`. -/
def normRow (r : RawRow) : NormRow where
  customer_name := r.customer_name.getD ""
  account_id := r.account_id.getD ""
  country := r.country.getD ""
  plan := coalesceNull r.plan
  equity := coalesceNull r.equity
  open_pnl := coalesceNull r.open_pnl
  pct_change := coalesceNull r.pct_change
  time_taken_hours := coalesceNull r.time_taken_hours
  updated_at := coalesceNull r.updated_at

/-- `pad2` from App.js: `String(n).padStart(2, "0")`. -/
def pad2 (n : Nat) : String :=
  let s := toString n
  if s.length < 2 then "0" ++ s else s

/-- `fmtDDHHMM` from App.js. The argument models `Number(hoursVal)`:
`none` is a non-finite result (`NaN`/`Infinity`), `some q` a finite number.
Non-finite or non-positive inputs clamp to `"00:00:00"`; otherwise the
hours value is decomposed as days:hours:minutes of `floor(h * 60)` minutes. -/
def fmtDDHHMM (hoursVal : Option Rat) : String :=
  match hoursVal with
  | none => "00:00:00"
  | some h =>
    if h ≤ 0 then "00:00:00"
    else
      let totalMinutes : Nat := (⌊h * 60⌋).toNat
      let dd := totalMinutes / (24 * 60)
      let rem := totalMinutes % (24 * 60)
      let hh := rem / 60
      let mm := rem % 60
      pad2 dd ++ ":" ++ pad2 hh ++ ":" ++ pad2 mm

/-- JS `x.toFixed(2)` for a non-negative number: round `x * 100` half away
from zero (here: half up, since `x ≥ 0`) and print with two decimals. -/
def toFixed2Abs (q : Rat) : String :=
  let n : Nat := (⌊q * 100 + 1/2⌋).toNat
  toString (n / 100) ++ "." ++ pad2 (n % 100)

/-- JS `n.toFixed(2)` on a finite number: negative numbers print a leading
minus sign, the magnitude is rounded half away from zero to two decimals. -/
def toFixed2 (q : Rat) : String :=
  if q < 0 then "-" ++ toFixed2Abs (-q) else toFixed2Abs q

/-- `fmtPct` from App.js: `""` for `null`/`undefined`/`NaN` (modelled as
`none`), otherwise an explicit `+` for positive values, then `toFixed(2)`
and a percent sign. -/
def fmtPct (v : Option Rat) : String :=
  match v with
  | none => ""
  | some n =>
    let sign := if 0 < n then "+" else ""
    sign ++ toFixed2 n ++ "%"

/-!
## Defensive client-side sort (`rows.sort(...)` in `loadData`)

The comparator is `(a, b) => bv - av` with
`av = Number.isFinite(Number(a.pct_change)) ? Number(a.pct_change) : -Infinity`,
so the list is reordered to be non-increasing in the key
"finite `Number(pct_change)`, else `-Infinity`".  `Array.prototype.sort`
guarantees the output is a comparator-sorted permutation of the input; the
model realises it with insertion sort.
-/

/-- The comparator key: `some q` for a finite `Number(pct_change)`, `none`
for `-Infinity`.  Note `Number(null) = 0` is finite, so a `null`
percent-change gets the finite key `0`, not `-Infinity`. -/
def sortKey (r : RawRow) : Option Rat := jsToNumber r.pct_change

/-- Order on comparator keys, with `none` playing `-Infinity`. -/
def keyLe : Option Rat → Option Rat → Bool
  | none, _ => true
  | some _, none => false
  | some x, some y => decide (x ≤ y)

/-- Insert one row into a list that is non-increasing in `sortKey`. -/
def insertDesc (r : RawRow) : List RawRow → List RawRow
  | [] => [r]
  | x :: xs =>
    if keyLe (sortKey x) (sortKey r) then r :: x :: xs else x :: insertDesc r xs

/-- The client-side sort of `loadData`: a comparator-sorted permutation of
the input, non-increasing in `sortKey`. -/
def sortRows (rows : List RawRow) : List RawRow := rows.foldr insertDesc []

/-- The relation in which `sortRows`' output is `Pairwise`: earlier rows
have keys at least as large as later rows. -/
def keyGeRel (a b : RawRow) : Prop := keyLe (sortKey b) (sortKey a) = true

theorem keyLe_total (a b : Option Rat) : keyLe a b = true ∨ keyLe b a = true := by
  cases a with
  | none => exact Or.inl rfl
  | some x =>
    cases b with
    | none => exact Or.inr rfl
    | some y =>
      rcases le_total x y with h | h
      · exact Or.inl (by simpa [keyLe] using h)
      · exact Or.inr (by simpa [keyLe] using h)

theorem keyLe_trans {a b c : Option Rat} (h1 : keyLe a b = true) (h2 : keyLe b c = true) :
    keyLe a c = true := by
  cases a with
  | none => rfl
  | some x =>
    cases b with
    | none => simp [keyLe] at h1
    | some y =>
      cases c with
      | none => simp [keyLe] at h2
      | some z =>
        simp only [keyLe, decide_eq_true_eq] at h1 h2 ⊢
        exact le_trans h1 h2

theorem insertDesc_perm (r : RawRow) (l : List RawRow) : (insertDesc r l).Perm (r :: l) := by
  induction l with
  | nil => exact List.Perm.refl _
  | cons x xs ih =>
    simp only [insertDesc]
    split
    · exact List.Perm.refl _
    · exact (List.Perm.cons x ih).trans (List.Perm.swap r x xs)

theorem sortRows_perm (rows : List RawRow) : (sortRows rows).Perm rows := by
  induction rows with
  | nil => exact List.Perm.refl _
  | cons r rs ih =>
    simp only [sortRows, List.foldr_cons]
    exact (insertDesc_perm r _).trans (List.Perm.cons r ih)

theorem insertDesc_sorted (r : RawRow) (l : List RawRow)
    (h : l.Pairwise keyGeRel) : (insertDesc r l).Pairwise keyGeRel := by
  induction l with
  | nil => simp [insertDesc, List.pairwise_singleton]
  | cons x xs ih =>
    rcases List.pairwise_cons.mp h with ⟨hx, hxs⟩
    simp only [insertDesc]
    split
    · rename_i hle
      refine List.pairwise_cons.mpr ⟨?_, h⟩
      intro b hb
      rcases List.mem_cons.mp hb with hb | hb
      · exact hb ▸ hle
      · exact keyLe_trans (hx b hb) hle
    · rename_i hnle
      refine List.pairwise_cons.mpr ⟨?_, ih hxs⟩
      intro b hb
      have hb' : b ∈ r :: xs := (insertDesc_perm r xs).subset hb
      rcases List.mem_cons.mp hb' with hb' | hb'
      · subst hb'
        rcases keyLe_total (sortKey x) (sortKey b) with h' | h'
        · exact absurd h' hnle
        · exact h'
      · exact hx b hb'

theorem sortRows_sorted (rows : List RawRow) : (sortRows rows).Pairwise keyGeRel := by
  induction rows with
  | nil => simp [sortRows]
  | cons r rs ih =>
    simp only [sortRows, List.foldr_cons]
    exact insertDesc_sorted r _ ih

/-!
## Rank map (`buildRankMap`, the Rank Tracker)

`buildRankMap` iterates the rows with their index `i`, computes
`id = String(rows[i]?.account_id ?? "")` (on normalized rows the
`account_id` field is already a string, so this is the field itself) and,
when `id` is non-empty, performs the JS object assignment `m[id] = i`.
Object assignment overwrites an existing key in place and otherwise adds
the key; the model is an association list with exactly those semantics.
-/

/-- The persisted rank map: association list from account id to 0-based rank. -/
abbrev RankMap := List (String × Nat)

/-- Property lookup `m[id]` on the object. -/
def lookupRank : RankMap → String → Option Nat
  | [], _ => none
  | (k, v) :: m, id => if k = id then some v else lookupRank m id

/-- Whether the object already has the key. -/
def hasKey (m : RankMap) (k : String) : Bool := m.any (fun p => p.1 = k)

/-- JS object assignment `m[k] = v`: overwrite in place, else add. -/
def setKey (m : RankMap) (k : String) (v : Nat) : RankMap :=
  if hasKey m k then m.map (fun p => if p.1 = k then (k, v) else p) else m ++ [(k, v)]

/-- The loop body of `buildRankMap`, carrying the loop index `i` and the
object `m` built so far. -/
def buildRankMapAux (i : Nat) (m : RankMap) : List NormRow → RankMap
  | [] => m
  | r :: rs =>
    buildRankMapAux (i + 1) (if r.account_id ≠ "" then setKey m r.account_id i else m) rs

/-- `buildRankMap` from App.js. -/
def buildRankMap (rows : List NormRow) : RankMap := buildRankMapAux 0 [] rows

theorem fmtPct_hundred : fmtPct (some 100) = "+100.00%" := by
  have h : ⌊(100 : Rat) * 100 + 1/2⌋ = 10000 := by norm_num
  simp only [fmtPct, toFixed2, toFixed2Abs, h]
  norm_num
  decide

/-- The index of the last row whose `account_id` equals `id`. -/
def lastIdxOf (id : String) : List NormRow → Option Nat
  | [] => none
  | r :: rs =>
    match lastIdxOf id rs with
    | some j => some (j + 1)
    | none => if r.account_id = id then some 0 else none


theorem lastIdxOf_cons (id : String) (r : NormRow) (rs : List NormRow) :
    lastIdxOf id (r :: rs) =
      match lastIdxOf id rs with
      | some j => some (j + 1)
      | none => if r.account_id = id then some 0 else none := rfl

/-- The value `lookupRank (buildRankMapAux i m rows) id` takes, as a function
of where `id` last occurs in `rows`. -/
def rankResult (i : Nat) (m : RankMap) (id : String) : Option Nat → Option Nat
  | some j => some (i + j)
  | none => lookupRank m id

theorem lookupRank_map_set_self (k : String) (v : Nat) :
    ∀ m : RankMap, hasKey m k = true →
      lookupRank (m.map (fun p => if p.1 = k then (k, v) else p)) k = some v := by
  intro m
  induction m with
  | nil => intro h; simp [hasKey] at h
  | cons p m ih =>
    obtain ⟨a, b⟩ := p
    intro h
    by_cases hpk : a = k
    · subst hpk
      simp only [List.map_cons]
      simp [lookupRank]
    · have h' : hasKey m k = true := by
        simpa [hasKey, List.any_cons, hpk] using h
      simp only [List.map_cons]
      rw [if_neg (by simpa using hpk)]
      simpa [lookupRank, hpk] using ih h'

theorem lookupRank_append_single_self (k : String) (v : Nat) :
    ∀ m : RankMap, hasKey m k = false → lookupRank (m ++ [(k, v)]) k = some v := by
  intro m
  induction m with
  | nil => simp [lookupRank]
  | cons p m ih =>
    obtain ⟨a, b⟩ := p
    intro h
    have hpk : ¬(a = k) := by
      intro hh
      simp [hasKey, List.any_cons, hh] at h
    have h' : hasKey m k = false := by
      simpa [hasKey, List.any_cons, hpk] using h
    simpa [lookupRank, hpk] using ih h'

theorem lookupRank_setKey_self (m : RankMap) (k : String) (v : Nat) :
    lookupRank (setKey m k v) k = some v := by
  unfold setKey
  split
  · exact lookupRank_map_set_self k v m (by assumption)
  · exact lookupRank_append_single_self k v m (by rename_i h; simpa using h)

theorem lookupRank_map_set_ne (k : String) (v : Nat) (id : String) (hid : id ≠ k) :
    ∀ m : RankMap,
      lookupRank (m.map (fun p => if p.1 = k then (k, v) else p)) id = lookupRank m id := by
  intro m
  induction m with
  | nil => rfl
  | cons p m ih =>
    obtain ⟨a, b⟩ := p
    by_cases hpk : a = k
    · subst hpk
      have hki : ¬(a = id) := fun hh => hid hh.symm
      simp only [List.map_cons]
      rw [if_pos (by simp)]
      simp [lookupRank, hki, ih]
    · simp only [List.map_cons]
      rw [if_neg (by simpa using hpk)]
      by_cases hpid : a = id
      · simp [lookupRank, hpid]
      · simp [lookupRank, hpid, ih]

theorem lookupRank_append_single_ne (k : String) (v : Nat) (id : String) (hid : id ≠ k) :
    ∀ m : RankMap, lookupRank (m ++ [(k, v)]) id = lookupRank m id := by
  intro m
  induction m with
  | nil =>
    have hki : ¬(k = id) := fun hh => hid hh.symm
    simp [lookupRank, hki]
  | cons p m ih =>
    obtain ⟨a, b⟩ := p
    by_cases hpid : a = id
    · simp [lookupRank, hpid]
    · simp [lookupRank, hpid, ih]

theorem lookupRank_setKey_ne (m : RankMap) (k : String) (v : Nat) (id : String)
    (hid : id ≠ k) : lookupRank (setKey m k v) id = lookupRank m id := by
  unfold setKey
  split
  · exact lookupRank_map_set_ne k v id hid m
  · exact lookupRank_append_single_ne k v id hid m

theorem lookupRank_buildRankMapAux (id : String) (hid : id ≠ "") :
    ∀ (rows : List NormRow) (i : Nat) (m : RankMap),
      lookupRank (buildRankMapAux i m rows) id = rankResult i m id (lastIdxOf id rows) := by
  intro rows
  induction rows with
  | nil => intro i m; rfl
  | cons r rs ih =>
    intro i m
    rw [lastIdxOf_cons]
    simp only [buildRankMapAux]
    rw [ih]
    cases hlast : lastIdxOf id rs with
    | some j =>
      simp only [rankResult]
      congr 1
      omega
    | none =>
      simp only [rankResult]
      by_cases hrid : r.account_id = id
      · have hne : r.account_id ≠ "" := by rw [hrid]; exact hid
        rw [if_pos hrid, if_pos hne, hrid]
        simp only [rankResult]
        rw [lookupRank_setKey_self]
        congr 1
      · rw [if_neg hrid]
        simp only [rankResult]
        by_cases hne : r.account_id ≠ ""
        · rw [if_pos hne]
          exact lookupRank_setKey_ne m r.account_id i id (fun hh => hrid hh.symm)
        · rw [if_neg hne]

theorem lookupRank_buildRankMapAux_empty :
    ∀ (rows : List NormRow) (i : Nat) (m : RankMap),
      lookupRank (buildRankMapAux i m rows) "" = lookupRank m "" := by
  intro rows
  induction rows with
  | nil => intro i m; rfl
  | cons r rs ih =>
    intro i m
    simp only [buildRankMapAux]
    rw [ih]
    by_cases hne : r.account_id ≠ ""
    · rw [if_pos hne]
      exact lookupRank_setKey_ne m r.account_id i "" (fun hh => hne hh.symm)
    · rw [if_neg hne]

theorem lastIdxOf_eq_none_iff (id : String) :
    ∀ rows : List NormRow, lastIdxOf id rows = none ↔ ∀ r ∈ rows, r.account_id ≠ id := by
  intro rows
  induction rows with
  | nil => simp [lastIdxOf]
  | cons r rs ih =>
    rw [lastIdxOf_cons]
    cases hlast : lastIdxOf id rs with
    | some j =>
      simp only []
      constructor
      · intro h; exact absurd h (by simp)
      · intro h
        have hall : ∀ r' ∈ rs, r'.account_id ≠ id := fun r' hr' => h r' (List.mem_cons_of_mem _ hr')
        rw [ih.mpr hall] at hlast
        exact absurd hlast (by simp)
    | none =>
      simp only []
      constructor
      · intro h r' hr'
        rcases List.mem_cons.mp hr' with hr' | hr'
        · subst hr'
          intro hh
          rw [if_pos hh] at h
          exact absurd h (by simp)
        · exact (ih.mp hlast) r' hr'
      · intro h
        rw [if_neg (h r (List.mem_cons_self r rs))]

theorem lastIdxOf_lt_length (id : String) :
    ∀ (rows : List NormRow) (j : Nat), lastIdxOf id rows = some j → j < rows.length := by
  intro rows
  induction rows with
  | nil => intro j h; simp [lastIdxOf] at h
  | cons r rs ih =>
    intro j h
    rw [lastIdxOf_cons] at h
    cases hlast : lastIdxOf id rs with
    | some j' =>
      rw [hlast] at h
      simp only [Option.some.injEq] at h
      have := ih j' hlast
      simp only [List.length_cons]
      omega
    | none =>
      rw [hlast] at h
      by_cases hrid : r.account_id = id
      · rw [if_pos hrid] at h
        simp only [Option.some.injEq] at h
        simp [← h]
      · rw [if_neg hrid] at h
        exact absurd h (by simp)

theorem lastIdxOf_get (id : String) :
    ∀ (rows : List NormRow) (j : Nat) (h : lastIdxOf id rows = some j),
      (rows.get ⟨j, lastIdxOf_lt_length id rows j h⟩).account_id = id := by
  intro rows
  induction rows with
  | nil => intro j h; simp [lastIdxOf] at h
  | cons r rs ih =>
    intro j h
    have h' := h
    rw [lastIdxOf_cons] at h'
    cases hlast : lastIdxOf id rs with
    | some j' =>
      rw [hlast] at h'
      simp only [Option.some.injEq] at h'
      subst h'
      simpa using ih j' hlast
    | none =>
      rw [hlast] at h'
      by_cases hrid : r.account_id = id
      · rw [if_pos hrid] at h'
        simp only [Option.some.injEq] at h'
        subst h'
        simpa using hrid
      · rw [if_neg hrid] at h'
        exact absurd h' (by simp)

theorem lastIdxOf_last (id : String) :
    ∀ (rows : List NormRow) (j : Nat), lastIdxOf id rows = some j →
      ∀ (k : Nat) (hk : k < rows.length), j < k → (rows.get ⟨k, hk⟩).account_id ≠ id := by
  intro rows
  induction rows with
  | nil => intro j h; simp [lastIdxOf] at h
  | cons r rs ih =>
    intro j h k hk hjk
    rw [lastIdxOf_cons] at h
    cases hlast : lastIdxOf id rs with
    | some j' =>
      rw [hlast] at h
      simp only [Option.some.injEq] at h
      subst h
      match k, hk with
      | k' + 1, hk =>
        have hk' : k' < rs.length := by simpa using hk
        have : (rs.get ⟨k', hk'⟩).account_id ≠ id := ih j' hlast k' hk' (by omega)
        simpa using this
    | none =>
      rw [hlast] at h
      by_cases hrid : r.account_id = id
      · rw [if_pos hrid] at h
        simp only [Option.some.injEq] at h
        subst h
        match k, hk with
        | k' + 1, hk =>
          have hk' : k' < rs.length := by simpa using hk
          have hnone : ∀ r' ∈ rs, r'.account_id ≠ id := (lastIdxOf_eq_none_iff id rs).mp hlast
          have hmem : rs.get ⟨k', hk'⟩ ∈ rs := List.get_mem rs k' hk'
          simpa using hnone _ hmem
      · rw [if_neg hrid] at h
        exact absurd h (by simp)

/-- The association list `buildRankMap` produces when every row has a fresh,
non-empty identifier: `(id of row j, i + j)` in input order. -/
def rankEntries (i : Nat) : List NormRow → RankMap
  | [] => []
  | r :: rs => (r.account_id, i) :: rankEntries (i + 1) rs

theorem hasKey_append (m1 m2 : RankMap) (k : String) :
    hasKey (m1 ++ m2) k = (hasKey m1 k || hasKey m2 k) := by
  simp [hasKey, List.any_append]

theorem setKey_fresh (m : RankMap) (k : String) (v : Nat) (h : hasKey m k = false) :
    setKey m k v = m ++ [(k, v)] := by
  simp [setKey, h]

theorem buildRankMapAux_fresh :
    ∀ (rows : List NormRow) (i : Nat) (m : RankMap),
      (∀ r ∈ rows, r.account_id ≠ "") →
      (∀ r ∈ rows, hasKey m r.account_id = false) →
      (rows.map (fun r => r.account_id)).Nodup →
      buildRankMapAux i m rows = m ++ rankEntries i rows := by
  intro rows
  induction rows with
  | nil => intro i m _ _ _; simp [buildRankMapAux, rankEntries]
  | cons r rs ih =>
    intro i m hne hfresh hnodup
    have hrne : r.account_id ≠ "" := hne r (List.mem_cons_self r rs)
    have hrfresh : hasKey m r.account_id = false := hfresh r (List.mem_cons_self r rs)
    simp only [buildRankMapAux, if_pos hrne]
    rw [setKey_fresh m r.account_id i hrfresh]
    have hnodup' : (r.account_id :: rs.map (fun r => r.account_id)).Nodup := by
      simpa only [List.map_cons] using hnodup
    have hhead : r.account_id ∉ rs.map (fun r => r.account_id) :=
      (List.nodup_cons.mp hnodup').1
    rw [ih (i + 1) (m ++ [(r.account_id, i)])
        (fun r' hr' => hne r' (List.mem_cons_of_mem _ hr'))
        (fun r' hr' => by
          rw [hasKey_append]
          have h1 : hasKey m r'.account_id = false := hfresh r' (List.mem_cons_of_mem _ hr')
          have h2 : hasKey [(r.account_id, i)] r'.account_id = false := by
            have : r.account_id ≠ r'.account_id := by
              intro hh
              exact hhead (hh ▸ List.mem_map_of_mem (fun r => r.account_id) hr')
            simp [hasKey, this]
          simp [h1, h2])
        ((List.nodup_cons.mp hnodup').2)]
    simp [rankEntries, List.append_assoc]

theorem rankEntries_values :
    ∀ (rows : List NormRow) (i : Nat),
      (rankEntries i rows).map Prod.snd = List.range' i rows.length := by
  intro rows
  induction rows with
  | nil => intro i; rfl
  | cons r rs ih =>
    intro i
    simp only [rankEntries, List.map_cons, List.length_cons, List.range'_succ]
    rw [ih]

theorem lookupRank_rankEntries :
    ∀ rows : List NormRow, (rows.map (fun r => r.account_id)).Nodup →
      ∀ (n j : Nat) (hj : j < rows.length),
        lookupRank (rankEntries n rows) ((rows.get ⟨j, hj⟩).account_id) = some (n + j) := by
  intro rows
  induction rows with
  | nil => intro _ n j hj; simp at hj
  | cons r rs ih =>
    intro hnodup n j hj
    have hnodup' : (r.account_id :: rs.map (fun r => r.account_id)).Nodup := by
      simpa only [List.map_cons] using hnodup
    match j, hj with
    | 0, _ =>
      simp [rankEntries, lookupRank]
    | j' + 1, hj =>
      have hj' : j' < rs.length := by simpa using hj
      have hhead : r.account_id ∉ rs.map (fun r => r.account_id) :=
        (List.nodup_cons.mp hnodup').1
      have htail : (rs.map (fun r => r.account_id)).Nodup :=
        (List.nodup_cons.mp hnodup').2
      have hne : r.account_id ≠ (rs.get ⟨j', hj'⟩).account_id := by
        intro hh
        exact hhead
          (hh ▸ List.mem_map_of_mem (fun r => r.account_id) (List.get_mem rs j' hj'))
      simp only [rankEntries, lookupRank, List.get_cons_succ]
      rw [if_neg hne]
      rw [ih htail (n + 1) j' hj']
      congr 1
      omega

/-- Modelled from the spec's words for claim C1: K, "the count of rows with
a non-empty identifier". -/
def specNonEmptyIdCount (rows : List NormRow) : Nat :=
  (rows.filter (fun r => !(r.account_id == ""))).length

/-- A normalized row carrying only an account id (other fields defaulted),
used to build concrete instances. -/
def mkIdRow (id : String) : NormRow where
  customer_name := ""
  account_id := id
  country := ""
  plan := .jnull
  equity := .jnull
  open_pnl := .jnull
  pct_change := .jnull
  time_taken_hours := .jnull
  updated_at := .jnull

/-- Claim C1, amended. `buildRankMap` returns a mapping whose keys are
exactly the non-empty account identifiers present in the list; each
identifier's value is the input position of its *last* occurrence (for
distinct identifiers, its position).  Only when every row has a non-empty
identifier and the identifiers are pairwise distinct do the values form the
permutation `0..N-1` of input positions; rows with empty or duplicate
identifiers make the values skip indices, so they are not in general a
permutation of `0..K-1`. -/
theorem claim_C1_buildRankMap (rows : List NormRow) :
    (∀ id : String,
        (lookupRank (buildRankMap rows) id).isSome ↔
          id ≠ "" ∧ ∃ r ∈ rows, r.account_id = id) ∧
    (∀ (id : String) (i : Nat), lookupRank (buildRankMap rows) id = some i →
        ∃ hi : i < rows.length,
          (rows.get ⟨i, hi⟩).account_id = id ∧
            ∀ (k : Nat) (hk : k < rows.length), i < k →
              (rows.get ⟨k, hk⟩).account_id ≠ id) ∧
    ((∀ r ∈ rows, r.account_id ≠ "") → (rows.map (fun r => r.account_id)).Nodup →
        (buildRankMap rows).map Prod.snd = List.range rows.length ∧
          ∀ (j : Nat) (hj : j < rows.length),
            lookupRank (buildRankMap rows) ((rows.get ⟨j, hj⟩).account_id) = some j) := by
  refine ⟨?_, ?_, ?_⟩
  · intro id
    by_cases hid : id = ""
    · subst hid
      rw [show buildRankMap rows = buildRankMapAux 0 [] rows from rfl,
        lookupRank_buildRankMapAux_empty rows 0 []]
      simp [lookupRank]
    · rw [show buildRankMap rows = buildRankMapAux 0 [] rows from rfl,
        lookupRank_buildRankMapAux id hid rows 0 []]
      cases hlast : lastIdxOf id rows with
      | some j =>
        simp only [rankResult, Option.isSome_some, true_iff]
        refine ⟨hid, rows.get ⟨j, lastIdxOf_lt_length id rows j hlast⟩,
          List.get_mem rows j _, lastIdxOf_get id rows j hlast⟩
      | none =>
        simp only [rankResult, lookupRank, Option.isSome_none]
        constructor
        · intro h; exact absurd h (by simp)
        · rintro ⟨-, r, hr, hrid⟩
          exact absurd hrid ((lastIdxOf_eq_none_iff id rows).mp hlast r hr)
  · intro id i h
    by_cases hid : id = ""
    · subst hid
      rw [show buildRankMap rows = buildRankMapAux 0 [] rows from rfl,
        lookupRank_buildRankMapAux_empty rows 0 []] at h
      exact absurd h (by simp [lookupRank])
    · rw [show buildRankMap rows = buildRankMapAux 0 [] rows from rfl,
        lookupRank_buildRankMapAux id hid rows 0 []] at h
      cases hlast : lastIdxOf id rows with
      | some j =>
        rw [hlast] at h
        simp only [rankResult, Option.some.injEq] at h
        have hij : i = j := by omega
        subst hij
        exact ⟨lastIdxOf_lt_length id rows i hlast, lastIdxOf_get id rows i hlast,
          lastIdxOf_last id rows i hlast⟩
      | none =>
        rw [hlast] at h
        exact absurd h (by simp [rankResult, lookupRank])
  · intro hne hnodup
    have hbuild : buildRankMap rows = rankEntries 0 rows := by
      rw [show buildRankMap rows = buildRankMapAux 0 [] rows from rfl,
        buildRankMapAux_fresh rows 0 [] hne (fun r _ => rfl) hnodup]
      simp
    constructor
    · rw [hbuild, rankEntries_values rows 0, List.range_eq_range']
    · intro j hj
      rw [hbuild]
      simpa using lookupRank_rankEntries rows hnodup 0 j hj

/-- Counterexample to claim C1 as stated: with an empty-identifier row in
front, `buildRankMap` maps `"a"` to its input position `1`, so the values
are `[1]`, not a permutation of `0..K-1 = [0]` (here K = 1). -/
theorem claim_C1_counterexample :
    buildRankMap [mkIdRow "", mkIdRow "a"] = [("a", 1)] ∧
    specNonEmptyIdCount [mkIdRow "", mkIdRow "a"] = 1 ∧
    ¬ ((buildRankMap [mkIdRow "", mkIdRow "a"]).map Prod.snd).Perm
        (List.range (specNonEmptyIdCount [mkIdRow "", mkIdRow "a"])) := by
  refine ⟨by decide, by decide, ?_⟩
  intro h
  have hv : ((buildRankMap [mkIdRow "", mkIdRow "a"]).map Prod.snd) = [1] := by decide
  have hr : List.range (specNonEmptyIdCount [mkIdRow "", mkIdRow "a"]) = [0] := by decide
  rw [hv, hr] at h
  have h1 : (1 : Nat) ∈ [0] := h.subset (by simp)
  simp at h1

/-- Witness for the amended claim C1 at a concrete two-row list with
distinct non-empty identifiers. -/
theorem claim_C1_witness :
    (buildRankMap [mkIdRow "x", mkIdRow "y"]).map Prod.snd = List.range 2 ∧
    lookupRank (buildRankMap [mkIdRow "x", mkIdRow "y"]) "y" = some 1 := by
  have h := (claim_C1_buildRankMap [mkIdRow "x", mkIdRow "y"]).2.2 (by decide) (by decide)
  refine ⟨by simpa using h.1, ?_⟩
  have h2 := h.2 1 (by decide)
  simpa using h2

/-!
## `loadData`: fetch cycle state machine (C3, C5, C6, C10)

The model makes the effect order of `loadData` explicit: the body runs up
to the first thrown error, accumulating state changes and a trace of the
externally visible events, and the surrounding `try/catch` turns any thrown
error into `setOriginalData([]); setData([])`.
-/

/-- The persisted `localStorage` slot for `LS_RANK_KEY`: absent, present
but unparsable JSON, or a stored rank map. -/
inductive StorageVal where
  | absent
  | corrupt
  | stored (m : RankMap)
deriving DecidableEq, Repr

/-- `JSON.parse(localStorage.getItem(LS_RANK_KEY) || "{}")` wrapped in
`try/catch`: an absent slot parses `"{}"` to the empty map, a corrupt slot
throws and is caught as the empty map. -/
def loadStoredMap : StorageVal → RankMap
  | .absent => []
  | .corrupt => []
  | .stored m => m

/-- The outcome of the `fetch`/`res.json()` sequence: rejected network
call, non-2xx response, body that is not JSON, JSON that is not an array
(`rows.sort` throws a TypeError on it), or an array of rows. -/
inductive FetchResult where
  | netError
  | httpError (status : Nat) (body : String)
  | badJson
  | nonArray
  | ok (rows : List RawRow)
deriving DecidableEq, Repr

/-- Whether the fetch path reached a successfully parsed array. -/
def FetchResult.isOk : FetchResult → Bool
  | .ok _ => true
  | _ => false

/-- The component state touched by `loadData`: the persisted slot, the
`prevRankById` React state exposed to the presentation layer, and the two
list states. -/
structure AppState where
  storage : StorageVal
  prevRankById : RankMap
  originalData : List NormRow
  data : List NormRow
deriving DecidableEq, Repr

/-- Externally visible events of one `loadData` run, in order. -/
inductive Ev where
  | readPrev (m : RankMap)
  | exposePrev (m : RankMap)
  | fetchDone (ok : Bool)
  | writeNew (m : RankMap)
  | publish
deriving DecidableEq, Repr

/-- The `try` block of `loadData`, run until it either completes or throws:
returns the state and event trace accumulated so far, and `some msg` when
an error was thrown at that point.  `cfgOk` is whether both
`REACT_APP_SUPABASE_URL` and `REACT_APP_SUPABASE_ANON_KEY` are present. -/
def loadDataBody (cfgOk : Bool) (res : FetchResult) (st : AppState) :
    AppState × List Ev × Option String :=
  if cfgOk = false then
    (st, [], some "Missing REACT_APP_SUPABASE_URL or REACT_APP_SUPABASE_ANON_KEY")
  else
    let prevMap := loadStoredMap st.storage
    let st1 : AppState := { st with prevRankById := prevMap }
    let evs : List Ev := [.readPrev prevMap, .exposePrev prevMap]
    match res with
    | .netError => (st1, evs, some "fetch rejected")
    | .httpError status body => (st1, evs ++ [.fetchDone false], some (toString status ++ body))
    | .badJson => (st1, evs ++ [.fetchDone false], some "invalid json")
    | .nonArray => (st1, evs ++ [.fetchDone false], some "rows.sort is not a function")
    | .ok rows =>
      let sorted := sortRows rows
      let nextData := sorted.map normRow
      let nextRankMap := buildRankMap nextData
      ({ st1 with
          storage := .stored nextRankMap
          originalData := nextData
          data := nextData },
        evs ++ [.fetchDone true, .writeNew nextRankMap, .publish], none)

/-- `loadData` with its `catch`: a thrown error is logged and converted to
`setOriginalData([]); setData([])`, never rethrown. -/
def loadData (cfgOk : Bool) (res : FetchResult) (st : AppState) : AppState × List Ev :=
  match loadDataBody cfgOk res st with
  | (st1, evs, none) => (st1, evs)
  | (st1, evs, some _) => ({ st1 with originalData := [], data := [] }, evs)

/-- A raw row carrying only a percent-change value, other columns null. -/
def mkPctRow (v : JsVal) : RawRow where
  customer_name := none
  account_id := none
  country := none
  plan := .jnull
  equity := .jnull
  open_pnl := .jnull
  pct_change := v
  time_taken_hours := .jnull
  updated_at := .jnull

/-- Claim C5, failing input: `Number(null) = 0` is finite, so the
comparator gives a `null` percent-change the key `0`, and the "defensive"
sort places the `null` row *before* a row with finite value `-5` — despite
the code's own comment "Defensive client-side sort (NULLs last)" and the
server-side `nullslast` ordering. -/
theorem claim_C5_null_sorts_as_zero :
    sortRows [mkPctRow (.jnum (-5)), mkPctRow .jnull] =
      [mkPctRow .jnull, mkPctRow (.jnum (-5))] ∧
    (mkPctRow .jnull).pct_change = JsVal.jnull ∧
    sortKey (mkPctRow .jnull) = some 0 ∧
    sortKey (mkPctRow (.jnum (-5))) = some (-5) := by
  have hk : keyLe (sortKey (mkPctRow .jnull)) (sortKey (mkPctRow (.jnum (-5)))) = false := by
    simp only [sortKey, mkPctRow, jsToNumber, keyLe]
    norm_num
  refine ⟨?_, rfl, rfl, rfl⟩
  simp [sortRows, insertDesc, hk]

/-- Claim C6: every failing fetch attempt (missing configuration, network
error, non-2xx status, malformed or non-array body) throws inside the
`try` block, is caught rather than propagated (the model's `loadData` is a
total function whose `catch` branch was taken, third conjunct), and the
caught handler replaces both list states with the empty list. -/
theorem claim_C6_failure_empties_state (cfgOk : Bool) (res : FetchResult) (st : AppState)
    (h : cfgOk = false ∨ res.isOk = false) :
    (loadData cfgOk res st).1.originalData = [] ∧
    (loadData cfgOk res st).1.data = [] ∧
    ((loadDataBody cfgOk res st).2.2).isSome = true := by
  cases cfgOk with
  | false => simp [loadData, loadDataBody]
  | true =>
    have hres : res.isOk = false := by
      rcases h with h | h
      · exact absurd h (by simp)
      · exact h
    cases res with
    | netError => simp [loadData, loadDataBody]
    | httpError status body => simp [loadData, loadDataBody]
    | badJson => simp [loadData, loadDataBody]
    | nonArray => simp [loadData, loadDataBody]
    | ok rows => simp [FetchResult.isOk] at hres

/-- Witness for claim C6 at a concrete failing input (HTTP 500). -/
theorem claim_C6_witness :
    (loadData true (.httpError 500 "oops")
        { storage := .stored [("a", 0)], prevRankById := [], originalData := [mkIdRow "a"],
          data := [mkIdRow "a"] }).1.originalData = [] ∧
    (loadData true (.httpError 500 "oops")
        { storage := .stored [("a", 0)], prevRankById := [], originalData := [mkIdRow "a"],
          data := [mkIdRow "a"] }).1.data = [] := by
  have h := claim_C6_failure_empties_state true (.httpError 500 "oops")
    { storage := .stored [("a", 0)], prevRankById := [], originalData := [mkIdRow "a"],
      data := [mkIdRow "a"] } (Or.inr (by decide))
  exact ⟨h.1, h.2.1⟩

/-- Claim C3: on every fetch cycle with configuration present, the
previously persisted map is read and exposed as `prevRankById` first (the
trace starts `readPrev, exposePrev` before `fetchDone`); the new map is
written only on a successfully parsed array (on failure no `writeNew`
event exists and storage is unchanged); and composing a successful cycle t
with any cycle t+1, the map exposed as "previous" during t+1 is exactly
the map persisted at t. -/
theorem claim_C3_read_then_write (st : AppState) (res : FetchResult) :
    (loadData true res st).1.prevRankById = loadStoredMap st.storage ∧
    (∃ tail : List Ev,
        (loadData true res st).2 =
          Ev.readPrev (loadStoredMap st.storage) ::
            Ev.exposePrev (loadStoredMap st.storage) :: tail) ∧
    (∀ rows, res = FetchResult.ok rows →
        (loadData true res st).2 =
          [Ev.readPrev (loadStoredMap st.storage),
            Ev.exposePrev (loadStoredMap st.storage),
            Ev.fetchDone true,
            Ev.writeNew (buildRankMap ((sortRows rows).map normRow)),
            Ev.publish] ∧
        (loadData true res st).1.storage =
          StorageVal.stored (buildRankMap ((sortRows rows).map normRow))) ∧
    (res.isOk = false →
        (loadData true res st).1.storage = st.storage ∧
        ∀ m : RankMap, Ev.writeNew m ∉ (loadData true res st).2) ∧
    (∀ (rows : List RawRow) (res2 : FetchResult),
        (loadData true res2 ((loadData true (FetchResult.ok rows) st).1)).1.prevRankById =
          buildRankMap ((sortRows rows).map normRow)) := by
  refine ⟨?_, ?_, ?_, ?_, ?_⟩
  · cases res <;> simp [loadData, loadDataBody]
  · cases res <;> simp [loadData, loadDataBody]
  · intro rows hres
    subst hres
    simp [loadData, loadDataBody]
  · intro hres
    cases res with
    | netError => simp [loadData, loadDataBody]
    | httpError status body => simp [loadData, loadDataBody]
    | badJson => simp [loadData, loadDataBody]
    | nonArray => simp [loadData, loadDataBody]
    | ok rows => simp [FetchResult.isOk] at hres
  · intro rows res2
    have hstore : ((loadData true (FetchResult.ok rows) st).1).storage =
        StorageVal.stored (buildRankMap ((sortRows rows).map normRow)) := by
      simp [loadData, loadDataBody]
    cases res2 <;>
      simp [loadData, loadDataBody, hstore, loadStoredMap]

/-- Witness for claim C3 at a concrete state and a concrete two-cycle run. -/
theorem claim_C3_witness :
    (loadData true FetchResult.badJson
        { storage := .stored [("a", 0)], prevRankById := [], originalData := [],
          data := [] }).1.prevRankById = [("a", 0)] ∧
    (loadData true FetchResult.netError
        ((loadData true (FetchResult.ok [mkPctRow (.jnum 7)])
            { storage := .absent, prevRankById := [], originalData := [],
              data := [] }).1)).1.prevRankById =
      buildRankMap ((sortRows [mkPctRow (.jnum 7)]).map normRow) := by
  refine ⟨?_, ?_⟩
  · exact (claim_C3_read_then_write
      { storage := .stored [("a", 0)], prevRankById := [], originalData := [], data := [] }
      FetchResult.badJson).1
  · exact (claim_C3_read_then_write
      { storage := .absent, prevRankById := [], originalData := [], data := [] }
      (FetchResult.ok [mkPctRow (.jnum 7)])).2.2.2.2 [mkPctRow (.jnum 7)] FetchResult.netError

/-- Claim C10: after a successful fetch both list states hold exactly the
normalized rows (so every exposed row is `norm` of some fetched row — the
nine-field `NormRow` shape), and `norm` defaults the three string columns
to `""` and the six remaining columns to `null` when the raw value is
missing (`undefined`) or `null`. -/
theorem claim_C10_norm_shape (st : AppState) (rows : List RawRow) :
    (loadData true (FetchResult.ok rows) st).1.originalData = (sortRows rows).map normRow ∧
    (loadData true (FetchResult.ok rows) st).1.data = (sortRows rows).map normRow ∧
    (∀ x ∈ (loadData true (FetchResult.ok rows) st).1.data, ∃ r ∈ rows, x = normRow r) ∧
    (∀ r : RawRow,
        (r.customer_name = none → (normRow r).customer_name = "") ∧
        (r.account_id = none → (normRow r).account_id = "") ∧
        (r.country = none → (normRow r).country = "") ∧
        (r.plan = .jundef ∨ r.plan = .jnull → (normRow r).plan = .jnull) ∧
        (r.equity = .jundef ∨ r.equity = .jnull → (normRow r).equity = .jnull) ∧
        (r.open_pnl = .jundef ∨ r.open_pnl = .jnull → (normRow r).open_pnl = .jnull) ∧
        (r.pct_change = .jundef ∨ r.pct_change = .jnull → (normRow r).pct_change = .jnull) ∧
        (r.time_taken_hours = .jundef ∨ r.time_taken_hours = .jnull →
          (normRow r).time_taken_hours = .jnull) ∧
        (r.updated_at = .jundef ∨ r.updated_at = .jnull → (normRow r).updated_at = .jnull)) := by
  have hdata : (loadData true (FetchResult.ok rows) st).1.data = (sortRows rows).map normRow := by
    simp [loadData, loadDataBody]
  refine ⟨by simp [loadData, loadDataBody], hdata, ?_, ?_⟩
  · intro x hx
    rw [hdata] at hx
    rcases List.mem_map.mp hx with ⟨r, hr, hxr⟩
    exact ⟨r, (sortRows_perm rows).subset hr, hxr.symm⟩
  · intro r
    refine ⟨?_, ?_, ?_, ?_, ?_, ?_, ?_, ?_, ?_⟩ <;> intro h <;>
      simp only [normRow] <;>
      first
        | (rcases h with h | h <;> rw [h])
        | rw [h]
    all_goals rfl

/-- Witness for claim C10 at a concrete row with missing and null fields. -/
theorem claim_C10_witness :
    (loadData true
        (FetchResult.ok
          [{ customer_name := none, account_id := some "a", country := none,
             plan := .jundef, equity := .jnull, open_pnl := .jundef,
             pct_change := .jnull, time_taken_hours := .jundef, updated_at := .jnull }])
        { storage := .absent, prevRankById := [], originalData := [], data := [] }).1.data =
      [{ customer_name := "", account_id := "a", country := "",
         plan := .jnull, equity := .jnull, open_pnl := .jnull,
         pct_change := .jnull, time_taken_hours := .jnull, updated_at := .jnull }] := by
  have h := (claim_C10_norm_shape
    { storage := .absent, prevRankById := [], originalData := [], data := [] }
    [{ customer_name := none, account_id := some "a", country := none,
       plan := .jundef, equity := .jnull, open_pnl := .jundef,
       pct_change := .jnull, time_taken_hours := .jundef, updated_at := .jnull }]).2.1
  rw [h]
  decide

/-!
## Refresh scheduler (`msUntilNextEvenHour30`, C2)

The JS function reads the *local* clock (`getHours`, `getMinutes`,
`setSeconds`, `setMinutes` are all local-time accessors — contrast
`getNextMonthResetTarget`, which deliberately uses `getUTC*`).  A `Date`
is modelled by its epoch milliseconds `now` together with the
environment's UTC offset `tz` in milliseconds (eastern offsets), so the
local clock reads `now + tz`.  `t.setSeconds(0, 0)` truncates the local
clock to the minute; `setMinutes(30, 0, 0)` replaces the minute part of
the hour with `:30:00.000`.  The returned value `cand - now` is a
difference of epoch instants, which equals the difference of the local
readings. -/
def msUntilNextEvenHour30 (tz now : Nat) : Int :=
  let L := now + tz
  let Lmin := L / 60000 * 60000
  if (L / 3600000) % 24 % 2 = 0 ∧ (Lmin / 60000) % 60 < 30 then
    ((Lmin / 3600000 * 3600000 + 30 * 60000 : Nat) : Int) - (L : Int)
  else
    let addHours : Nat := if (L / 3600000) % 24 % 2 = 1 then 1 else 2
    (((Lmin + addHours * 3600 * 1000) / 3600000 * 3600000 + 30 * 60000 : Nat) : Int) -
      (L : Int)

/-- A clock reading (in ms) that is exactly an even hour plus 30 minutes. -/
def isEvenHour30 (t : Nat) : Prop := (t / 3600000) % 2 = 0 ∧ t % 3600000 = 1800000

instance (t : Nat) : Decidable (isEvenHour30 t) := by
  unfold isEvenHour30
  infer_instance

/-- The local-clock instant the timer actually targets: this hour's `:30`
within an even hour before minute 30, otherwise the `:30` of the next even
hour. -/
def nextEvenHour30Local (L : Nat) : Nat :=
  if (L / 3600000) % 24 % 2 = 0 ∧ (L / 60000) % 60 < 30 then
    L / 3600000 * 3600000 + 1800000
  else if (L / 3600000) % 24 % 2 = 1 then
    (L / 3600000 + 1) * 3600000 + 1800000
  else
    (L / 3600000 + 2) * 3600000 + 1800000

theorem msUntilNextEvenHour30_eq (tz now : Nat) :
    msUntilNextEvenHour30 tz now =
      (nextEvenHour30Local (now + tz) : Int) - ((now + tz : Nat) : Int) := by
  simp only [msUntilNextEvenHour30, nextEvenHour30Local]
  split_ifs <;> omega

theorem nextEvenHour30Local_spec (L : Nat) :
    L < nextEvenHour30Local L ∧
    isEvenHour30 (nextEvenHour30Local L) ∧
    ∀ u : Nat, L < u → isEvenHour30 u → nextEvenHour30Local L ≤ u := by
  unfold nextEvenHour30Local isEvenHour30
  split_ifs with h1 h2 <;>
    refine ⟨by omega, ⟨by omega, by omega⟩, ?_⟩ <;>
    · intro u hu hev
      rcases hev with ⟨hev1, hev2⟩
      omega

/-- Counterexample to claim C2 as stated: the code reads the *local*
clock, not UTC.  In a UTC+1 environment (`tz = 3600000`), at UTC 07:10
(local 08:10) the function returns 20 minutes, landing on UTC 07:30 —
which is not an even **UTC** hour plus 30 minutes (the claim's reading
would require firing at UTC 08:30, i.e. 80 minutes). -/
theorem claim_C2_counterexample :
    msUntilNextEvenHour30 3600000 (7 * 3600000 + 10 * 60000) = 1200000 ∧
    ¬ isEvenHour30 (7 * 3600000 + 10 * 60000 + 1200000) ∧
    (1200000 : Int) ≠ 4800000 := by
  refine ⟨by decide, ?_, by decide⟩
  intro h
  rcases h with ⟨h1, -⟩
  norm_num at h1

/-- Claim C2, amended: the hour arithmetic is in the environment's local
clock (equivalently UTC exactly when the UTC offset is an even number of
hours, e.g. zero).  For every offset `tz` and instant `now`, the returned
delay is positive and lands exactly on the least local-clock instant after
`now` that is an even hour plus 30 minutes: within an even local hour
before minute 30 that is this hour's `:30`, otherwise the `:30` of the
next even local hour (1 or 2 hours ahead).  In particular (offset 0):
08:10 fires at 08:30 (20 min), 08:45 at 10:30 (105 min), 09:05 at 10:30
(85 min). -/
theorem claim_C2_next_even_hour30 (tz now : Nat) :
    0 < msUntilNextEvenHour30 tz now ∧
    ((now + tz : Nat) : Int) + msUntilNextEvenHour30 tz now =
      (nextEvenHour30Local (now + tz) : Int) ∧
    isEvenHour30 (nextEvenHour30Local (now + tz)) ∧
    (∀ u : Nat, now + tz < u → isEvenHour30 u → nextEvenHour30Local (now + tz) ≤ u) ∧
    msUntilNextEvenHour30 0 (8 * 3600000 + 10 * 60000) = 20 * 60000 ∧
    msUntilNextEvenHour30 0 (8 * 3600000 + 45 * 60000) = 105 * 60000 ∧
    msUntilNextEvenHour30 0 (9 * 3600000 + 5 * 60000) = 85 * 60000 := by
  obtain ⟨hlt, hev, hmin⟩ := nextEvenHour30Local_spec (now + tz)
  refine ⟨?_, ?_, hev, hmin, by decide, by decide, by decide⟩
  · rw [msUntilNextEvenHour30_eq]
    omega
  · rw [msUntilNextEvenHour30_eq]
    omega

/-- Witness for the amended claim C2: at offset 0 and local 08:10 the
delay is positive, and the minimality clause discharged at the concrete
candidate 08:30. -/
theorem claim_C2_witness :
    0 < msUntilNextEvenHour30 0 (8 * 3600000 + 10 * 60000) ∧
    nextEvenHour30Local (8 * 3600000 + 10 * 60000 + 0) ≤ 8 * 3600000 + 1800000 := by
  have h := claim_C2_next_even_hour30 0 (8 * 3600000 + 10 * 60000)
  exact ⟨h.1, h.2.2.2.1 (8 * 3600000 + 1800000) (by decide) (by decide)⟩

/-!
## Monthly reset target (`getNextMonthResetTarget` and the countdown tick, C4)

A JS `Date` is represented here by its UTC calendar decomposition
(`getUTCFullYear`, `getUTCMonth` 0-11, `getUTCDate`, ...).  For valid
field values, comparing two dates by epoch milliseconds (`now >= target`)
is the same as comparing the lexicographic field encoding `encodeDate`.
`Date.UTC(y, m + 1, 1)` normalizes an overflowing month 12 to month 0 of
year `y + 1`; that is the only normalization the source can trigger. -/
structure DateTimeUTC where
  year : Nat
  month : Nat
  day : Nat
  hour : Nat
  minute : Nat
  second : Nat
  ms : Nat
deriving DecidableEq, Repr

/-- Field ranges under which the lexicographic encoding is ordered like
epoch milliseconds. -/
def ValidDate (d : DateTimeUTC) : Prop :=
  d.month < 12 ∧ 1 ≤ d.day ∧ d.day ≤ 31 ∧ d.hour < 24 ∧ d.minute < 60 ∧
    d.second < 60 ∧ d.ms < 1000

instance (d : DateTimeUTC) : Decidable (ValidDate d) := by
  unfold ValidDate
  infer_instance

/-- Strictly monotone encoding of the calendar fields (for valid dates,
ordered exactly as epoch milliseconds). -/
def encodeDate (d : DateTimeUTC) : Nat :=
  (((((d.year * 12 + d.month) * 32 + d.day) * 24 + d.hour) * 60 + d.minute) * 60 +
      d.second) * 1000 + d.ms

/-- `getNextMonthResetTarget` from App.js:
`Date.UTC(getUTCFullYear(now), getUTCMonth(now) + 1, 1, 0, 0, 0)` —
the first instant of the next UTC calendar month. -/
def getNextMonthResetTarget (d : DateTimeUTC) : DateTimeUTC :=
  if d.month + 1 < 12 then
    { year := d.year, month := d.month + 1, day := 1, hour := 0, minute := 0,
      second := 0, ms := 0 }
  else
    { year := d.year + 1, month := 0, day := 1, hour := 0, minute := 0,
      second := 0, ms := 0 }

/-- The countdown tick of the `setInterval` effect: when `now >= target`,
the target is recomputed from `now`; otherwise it is kept. -/
def tickTarget (now target : DateTimeUTC) : DateTimeUTC :=
  if encodeDate target ≤ encodeDate now then getNextMonthResetTarget now else target

/-- Claim C4: the reset target is 00:00:00.000 UTC on the first day of the
month following `now` and is strictly in the future; a tick leaves a
still-future target unchanged, and once `now` reaches or passes the stored
target it recomputes it (monotonically advancing it past `now`); with the
claim's concrete instants, 2024-03-15T10:00:00Z yields 2024-04-01 and a
stale 2024-04-01 target at 2024-04-01T00:00:01Z yields 2024-05-01. -/
theorem claim_C4_reset_target :
    (∀ d : DateTimeUTC, ValidDate d →
        encodeDate d < encodeDate (getNextMonthResetTarget d) ∧
        ValidDate (getNextMonthResetTarget d) ∧
        (getNextMonthResetTarget d).day = 1 ∧
        (getNextMonthResetTarget d).hour = 0 ∧
        (getNextMonthResetTarget d).minute = 0 ∧
        (getNextMonthResetTarget d).second = 0 ∧
        (getNextMonthResetTarget d).ms = 0 ∧
        (getNextMonthResetTarget d).year * 12 + (getNextMonthResetTarget d).month =
          d.year * 12 + d.month + 1) ∧
    (∀ now target : DateTimeUTC, ValidDate now →
        (encodeDate now < encodeDate target → tickTarget now target = target) ∧
        (encodeDate target ≤ encodeDate now →
          tickTarget now target = getNextMonthResetTarget now ∧
          encodeDate now < encodeDate (tickTarget now target))) ∧
    getNextMonthResetTarget
        { year := 2024, month := 2, day := 15, hour := 10, minute := 0, second := 0,
          ms := 0 } =
      { year := 2024, month := 3, day := 1, hour := 0, minute := 0, second := 0,
        ms := 0 } ∧
    tickTarget
        { year := 2024, month := 3, day := 1, hour := 0, minute := 0, second := 1,
          ms := 0 }
        { year := 2024, month := 3, day := 1, hour := 0, minute := 0, second := 0,
          ms := 0 } =
      { year := 2024, month := 4, day := 1, hour := 0, minute := 0, second := 0,
        ms := 0 } := by
  have hnext : ∀ d : DateTimeUTC, ValidDate d →
      encodeDate d < encodeDate (getNextMonthResetTarget d) := by
    intro d hv
    rcases hv with ⟨h1, h2, h3, h4, h5, h6, h7⟩
    unfold getNextMonthResetTarget encodeDate
    split_ifs <;> simp only [] <;> nlinarith
  refine ⟨?_, ?_, by decide, by decide⟩
  · intro d hv
    obtain ⟨h1, h2, h3, h4, h5, h6, h7⟩ := hv
    refine ⟨hnext d ⟨h1, h2, h3, h4, h5, h6, h7⟩, ?_, ?_, ?_, ?_, ?_, ?_, ?_⟩
    · unfold getNextMonthResetTarget ValidDate
      split_ifs <;> (refine ⟨?_, ?_, ?_, ?_, ?_, ?_, ?_⟩ <;> simp <;> omega)
    all_goals
      unfold getNextMonthResetTarget
      split_ifs <;> simp <;> omega
  · intro now target hv
    constructor
    · intro hlt
      unfold tickTarget
      rw [if_neg (by omega)]
    · intro hge
      unfold tickTarget
      rw [if_pos hge]
      exact ⟨rfl, hnext now hv⟩

/-- Witness for claim C4 at the concrete date 2024-03-15T10:00:00Z. -/
theorem claim_C4_witness :
    encodeDate
        { year := 2024, month := 2, day := 15, hour := 10, minute := 0, second := 0,
          ms := 0 } <
      encodeDate
        (getNextMonthResetTarget
          { year := 2024, month := 2, day := 15, hour := 10, minute := 0, second := 0,
            ms := 0 }) ∧
    tickTarget
        { year := 2024, month := 2, day := 15, hour := 10, minute := 0, second := 0,
          ms := 0 }
        { year := 2024, month := 1, day := 1, hour := 0, minute := 0, second := 0,
          ms := 0 } =
      getNextMonthResetTarget
        { year := 2024, month := 2, day := 15, hour := 10, minute := 0, second := 0,
          ms := 0 } := by
  have h := claim_C4_reset_target
  refine ⟨(h.1 _ (by decide)).1, ?_⟩
  exact ((h.2.1 _ _ (by decide)).2 (by decide)).1

/-!
## Country resolver (`resolveCountryAlpha2`, `getFlagOnly`, C7)

The external library `i18n-iso-countries` (`countries.getAlpha2Code(name,
"en")`) is not part of this repository; it is modelled as an abstract
lookup `lib : String → Option String`, constrained in each theorem by
hypotheses stating only the library facts the claim needs.  JS string
methods are modelled character-wise (`toLowerCase`/`trim` in their ASCII
behavior; `normalize("NFKD")` followed by combining-mark removal is
modelled as the mark filter alone, which is exact for inputs without
decomposable characters — all inputs in the claims are such). -/
def strToLower (s : String) : String := String.mk (s.toList.map Char.toLower)

/-- JS `String.prototype.trim` (ASCII whitespace). -/
def strTrim (s : String) : String :=
  String.mk (((s.toList.dropWhile Char.isWhitespace).reverse.dropWhile
    Char.isWhitespace).reverse)

/-- `.replace(/[().]/g, "")`. -/
def removeParensDots (s : String) : String :=
  String.mk (s.toList.filter (fun c => !(c == '(' || c == ')' || c == '.')))

/-- Splitting on single whitespace characters (like `String.split` on a
whitespace predicate, keeping empty chunks between adjacent separators). -/
def splitWsAux : List Char → List Char → List (List Char)
  | [], acc => [acc.reverse]
  | c :: cs, acc =>
    if c.isWhitespace then acc.reverse :: splitWsAux cs []
    else splitWsAux cs (c :: acc)

/-- Rejoin non-empty chunks with single spaces. -/
def joinSpace : List (List Char) → List Char
  | [] => []
  | [w] => w
  | w :: ws => w ++ ' ' :: joinSpace ws

/-- `.replace(/\s+/g, " ").trim()`: collapse whitespace runs to single
spaces and strip leading/trailing whitespace. -/
def collapseWs (s : String) : String :=
  String.mk (joinSpace ((splitWsAux s.toList []).filter (fun t => !t.isEmpty)))

/-- `.normalize("NFKD").replace(/[̀-ͯ]/g, "")`, modelled as the
combining-mark filter (exact when the input has no decomposable
characters). -/
def stripCombiningMarks (s : String) : String :=
  String.mk (s.toList.filter (fun c => !(0x300 ≤ c.toNat && c.toNat ≤ 0x36F)))

/-- `/^[A-Za-z]{2}$/.test(s)`. -/
def isTwoAlphaRegex (s : String) : Bool :=
  s.toList.length == 2 && s.toList.all Char.isAlpha

/-- `COUNTRY_ALIASES` from App.js, in source order. -/
def COUNTRY_ALIASES : List (String × String) := [
  ("uk", "United Kingdom"),
  ("u.k.", "United Kingdom"),
  ("gb", "United Kingdom"),
  ("great britain", "United Kingdom"),
  ("britain", "United Kingdom"),
  ("uae", "United Arab Emirates"),
  ("u.a.e.", "United Arab Emirates"),
  ("usa", "United States of America"),
  ("u.s.a.", "United States of America"),
  ("united states", "United States of America"),
  ("us", "United States of America"),
  ("russia", "Russian Federation"),
  ("kyrgyzstan", "Kyrgyz Republic"),
  ("czech republic", "Czechia"),
  ("ivory coast", "Côte d\x27Ivoire"),
  ("cote d\x27ivoire", "Côte d\x27Ivoire"),
  ("côte d\x27ivoire", "Côte d\x27Ivoire"),
  ("dr congo", "Congo, Democratic Republic of the"),
  ("democratic republic of the congo", "Congo, Democratic Republic of the"),
  ("republic of the congo", "Congo"),
  ("swaziland", "Eswatini"),
  ("cape verde", "Cabo Verde"),
  ("palestine", "Palestine, State of"),
  ("iran", "Iran, Islamic Republic of"),
  ("syria", "Syrian Arab Republic"),
  ("moldova", "Moldova, Republic of"),
  ("venezuela", "Venezuela, Bolivarian Republic of"),
  ("bolivia", "Bolivia, Plurinational State of"),
  ("laos", "Lao People\x27s Democratic Republic"),
  ("brunei", "Brunei Darussalam"),
  ("vietnam", "Viet Nam"),
  ("south korea", "Korea, Republic of"),
  ("north korea", "Korea, Democratic People\x27s Republic of"),
  ("macau", "Macao"),
  ("hong kong", "Hong Kong"),
  ("burma", "Myanmar"),
  ("myanmar", "Myanmar"),
  ("north macedonia", "North Macedonia"),
  ("são tomé and príncipe", "Sao Tome and Principe"),
  ("sao tome and principe", "Sao Tome and Principe"),
  ("micronesia", "Micronesia, Federated States of"),
  ("st kitts and nevis", "Saint Kitts and Nevis"),
  ("saint kitts and nevis", "Saint Kitts and Nevis"),
  ("st lucia", "Saint Lucia"),
  ("saint lucia", "Saint Lucia"),
  ("st vincent and the grenadines", "Saint Vincent and the Grenadines"),
  ("saint vincent and the grenadines", "Saint Vincent and the Grenadines"),
  ("antigua", "Antigua and Barbuda"),
  ("bahamas", "Bahamas"),
  ("gambia", "Gambia"),
  ("bahrein", "Bahrain"),
  ("netherlands the", "Netherlands"),
  ("republic of ireland", "Ireland"),
  ("eswatini", "Eswatini"),
  ("kosovo", "Kosovo"),
  ("tanzania", "tz"),
  ("tanzania, united republic of", "tz"),
  ("united republic of tanzania", "tz"),
  ("tanzania united republic of", "tz")]

/-- Property lookup on the alias object. -/
def aliasLookup (k : String) : Option String :=
  (COUNTRY_ALIASES.find? (fun p => p.1 == k)).map (fun p => p.2)

/-- Whether `fullyNormalized.includes("tanzania")`. -/
def isPrefixChars : List Char → List Char → Bool
  | [], _ => true
  | _ :: _, [] => false
  | a :: as, b :: bs => a == b && isPrefixChars as bs

def containsSub (pat : List Char) : List Char → Bool
  | [] => pat.isEmpty
  | c :: cs => isPrefixChars pat (c :: cs) || containsSub pat cs

def containsTanzania (s : String) : Bool := containsSub "tanzania".toList s.toList

/-- The retry-with-cleaned-forms tail of `resolveCountryAlpha2`: the last
two `if (!code)` blocks plus the final `return`. -/
def resolveFallback (lib : String → Option String)
    (cleanedLower fullyNormalized : String) : Option String :=
  match (lib cleanedLower).orElse (fun _ => lib fullyNormalized) with
  | some c => some (strToLower c)
  | none => if containsTanzania fullyNormalized then some "tz" else none

/-- `resolveCountryAlpha2` from App.js, parameterized by the external
library lookup `lib`.  `none` for the argument models a `null`/`undefined`
country; the early `return alias.toLowerCase()` for two-letter aliases is
the first `some` branch inside the alias case. -/
def resolveCountryAlpha2 (lib : String → Option String) (rawName : Option String) :
    Option String :=
  match rawName with
  | none => none
  | some s0 =>
    if s0 = "" then none
    else
      let raw := strTrim s0
      if raw = "" then none
      else
        let rawLower := strToLower raw
        let cleanedLower := collapseWs (removeParensDots rawLower)
        let fullyNormalized := collapseWs (removeParensDots (stripCombiningMarks rawLower))
        match lib raw with
        | some c => some (strToLower c)
        | none =>
          match (aliasLookup rawLower).orElse (fun _ =>
              (aliasLookup cleanedLower).orElse (fun _ => aliasLookup fullyNormalized)) with
          | some aliasName =>
            if isTwoAlphaRegex aliasName then some (strToLower aliasName)
            else
              match (lib aliasName).orElse (fun _ =>
                  if strToLower aliasName = "kosovo" then some "XK" else none) with
              | some c => some (strToLower c)
              | none => resolveFallback lib cleanedLower fullyNormalized
          | none => resolveFallback lib cleanedLower fullyNormalized

/-- What `getFlagOnly` renders: a flag `<img>` (its `src` and `title`), or
the raw text fallback when no code resolves. -/
inductive FlagOutput where
  | img (src : String) (title : String)
  | text (s : String)
deriving DecidableEq, Repr

/-- `getFlagOnly` from App.js. -/
def getFlagOnly (lib : String → Option String) (countryName : Option String) : FlagOutput :=
  match resolveCountryAlpha2 lib countryName with
  | none => .text (countryName.getD "")
  | some code => .img ("https://flagcdn.com/w40/" ++ code ++ ".png") (countryName.getD "")

/-- Claim C7: under the documented behavior of the external name→code
library (it does not know the colloquial `"USA"` but maps the official
name `"United States of America"` to `"US"`, and knows no `"Atlantis"`),
the resolver maps `"USA"` to `"us"` via the alias table, and `getFlagOnly`
returns the original text unchanged for any input the resolver cannot map
(in particular `"Atlantis"`); both functions are total, so nothing throws. -/
theorem claim_C7_country_resolution (lib : String → Option String)
    (husa : lib "USA" = none)
    (hofficial : lib "United States of America" = some "US")
    (hatl1 : lib "Atlantis" = none)
    (hatl2 : lib "atlantis" = none) :
    resolveCountryAlpha2 lib (some "USA") = some "us" ∧
    getFlagOnly lib (some "Atlantis") = FlagOutput.text "Atlantis" ∧
    (∀ name : String, name ≠ "" → resolveCountryAlpha2 lib (some name) = none →
        getFlagOnly lib (some name) = FlagOutput.text name) := by
  have ht : strTrim "USA" = "USA" := by decide
  have hl : strToLower "USA" = "usa" := by decide
  have hclean : collapseWs (removeParensDots "usa") = "usa" := by decide
  have hmark : stripCombiningMarks "usa" = "usa" := by decide
  have halias : aliasLookup "usa" = some "United States of America" := by decide
  have h2a : isTwoAlphaRegex "United States of America" = false := by decide
  have hus : strToLower "US" = "us" := by decide
  have hta : strTrim "Atlantis" = "Atlantis" := by decide
  have hla : strToLower "Atlantis" = "atlantis" := by decide
  have hcleana : collapseWs (removeParensDots "atlantis") = "atlantis" := by decide
  have hmarka : stripCombiningMarks "atlantis" = "atlantis" := by decide
  have haliasa : aliasLookup "atlantis" = none := by decide
  have htanz : containsTanzania "atlantis" = false := by decide
  refine ⟨?_, ?_, ?_⟩
  · simp only [resolveCountryAlpha2, ht, hl, hclean, hmark, halias, husa, h2a,
      hofficial, hus]
    simp only [Option.orElse]
    rw [h2a, hofficial]
    simp [hus]
  · have hres : resolveCountryAlpha2 lib (some "Atlantis") = none := by
      simp only [resolveCountryAlpha2, hta, hla, hcleana, hmarka, haliasa, hatl1, hatl2]
      simp [Option.orElse, resolveFallback, hatl2, htanz]
    simp [getFlagOnly, hres]
  · intro name hne hres
    simp [getFlagOnly, hres]

/-- Witness for claim C7 with a concrete stub library knowing exactly the
official name `"United States of America"`. -/
theorem claim_C7_witness :
    resolveCountryAlpha2
        (fun s => if s = "United States of America" then some "US" else none)
        (some "USA") = some "us" ∧
    getFlagOnly
        (fun s => if s = "United States of America" then some "US" else none)
        (some "Atlantis") = FlagOutput.text "Atlantis" := by
  have h := claim_C7_country_resolution
    (fun s => if s = "United States of America" then some "US" else none)
    (by decide) (by decide) (by decide) (by decide)
  exact ⟨h.1, h.2.1⟩

/-- Claim C8: `fmtDDHHMM(25)` is one day, one hour, zero minutes
(`"01:01:00"`), `fmtDDHHMM(0)` and every other non-positive (or
non-finite) input clamp to `"00:00:00"`. -/
theorem claim_C8_fmtDDHHMM :
    fmtDDHHMM (some 25) = "01:01:00" ∧
    fmtDDHHMM (some 0) = "00:00:00" ∧
    fmtDDHHMM (some (-5)) = "00:00:00" ∧
    (∀ q : Rat, q ≤ 0 → fmtDDHHMM (some q) = "00:00:00") ∧
    fmtDDHHMM none = "00:00:00" := by
  refine ⟨?_, by simp [fmtDDHHMM], ?_, ?_, rfl⟩
  · have h : ⌊(25 : Rat) * 60⌋ = 1500 := by norm_num
    simp only [fmtDDHHMM, h]
    norm_num
    decide
  · simp only [fmtDDHHMM]
    rw [if_pos (by norm_num)]
  · intro q hq
    simp only [fmtDDHHMM]
    rw [if_pos hq]

/-- Witness for claim C8's universally quantified clamp clause at `-5`. -/
theorem claim_C8_witness : fmtDDHHMM (some (-5)) = "00:00:00" :=
  (claim_C8_fmtDDHHMM).2.2.2.1 (-5) (by norm_num)

/-!
## Net-percent display cap (C9)

Desktop rows (inside the `rowsToRender.map` body) and the mobile cards
(`MobileLeaderboardCards`) both compute
`nRaw = numVal(row.pct_change); n = nRaw == null ? null : Math.min(nRaw, 100)`
and render `fmtPct(n)`; the ranking order is produced earlier from the raw
uncapped `pct_change` (the sort comparator and `buildRankMap` input). -/
def desktopNetPct (row : NormRow) : String :=
  match numVal row.pct_change with
  | none => fmtPct none
  | some nRaw => fmtPct (some (min nRaw 100))

/-- The identical computation in `MobileLeaderboardCards`. -/
def mobileNetPct (row : NormRow) : String :=
  match numVal row.pct_change with
  | none => fmtPct none
  | some nRaw => fmtPct (some (min nRaw 100))

/-- Claim C9: desktop and mobile render the same capped value; for a
numeric percent-change the rendered string is `fmtPct(min(pct, 100))`, and
any value above 100 renders as `"+100.00%"`; the ranking order still uses
the uncapped value — two rows at 150 and 120 both display `"+100.00%"`,
yet the sort places 150 first. -/
theorem claim_C9_pct_display_cap :
    (∀ r : NormRow, desktopNetPct r = mobileNetPct r) ∧
    (∀ (r : NormRow) (q : Rat), r.pct_change = JsVal.jnum q →
        desktopNetPct r = fmtPct (some (min q 100)) ∧
        (100 < q → desktopNetPct r = "+100.00%")) ∧
    sortRows [mkPctRow (.jnum 120), mkPctRow (.jnum 150)] =
      [mkPctRow (.jnum 150), mkPctRow (.jnum 120)] ∧
    desktopNetPct (normRow (mkPctRow (.jnum 150))) = "+100.00%" ∧
    desktopNetPct (normRow (mkPctRow (.jnum 120))) = "+100.00%" := by
  have hcap : ∀ (r : NormRow) (q : Rat), r.pct_change = JsVal.jnum q →
      desktopNetPct r = fmtPct (some (min q 100)) ∧
      (100 < q → desktopNetPct r = "+100.00%") := by
    intro r q hq
    have h1 : desktopNetPct r = fmtPct (some (min q 100)) := by
      simp [desktopNetPct, numVal, jsToNumber, hq]
    refine ⟨h1, ?_⟩
    intro hgt
    rw [h1, min_eq_right (le_of_lt hgt), fmtPct_hundred]
  refine ⟨fun r => rfl, hcap, ?_, ?_, ?_⟩
  · have hk : keyLe (sortKey (mkPctRow (.jnum 150))) (sortKey (mkPctRow (.jnum 120))) =
        false := by
      simp only [sortKey, mkPctRow, jsToNumber, keyLe]
      norm_num
    simp [sortRows, insertDesc, hk]
  · have := (hcap (normRow (mkPctRow (.jnum 150))) 150 rfl).2 (by norm_num)
    exact this
  · have := (hcap (normRow (mkPctRow (.jnum 120))) 120 rfl).2 (by norm_num)
    exact this

/-- Witness for claim C9's capped-display clause at the concrete value 150. -/
theorem claim_C9_witness :
    desktopNetPct (normRow (mkPctRow (.jnum 150))) = "+100.00%" ∧
    desktopNetPct (normRow (mkPctRow (.jnum 150))) =
      mobileNetPct (normRow (mkPctRow (.jnum 150))) := by
  have h := claim_C9_pct_display_cap
  exact ⟨(h.2.1 (normRow (mkPctRow (.jnum 150))) 150 rfl).2 (by norm_num),
    h.1 (normRow (mkPctRow (.jnum 150)))⟩
